import Mathlib

/-!
Verification of the fantrax_assistant draft-assistant core against its
natural-language specification.

The development shallowly embeds three source modules:

* `src/fantrax_assistant/config.py` — the `DraftConfig` data loader and the
  fuzzy name matcher `_fuzzy_match_name` (the spec's "Identity Resolver");
* `src/fantrax_assistant/draft_state.py` — the `DraftState` ledger
  (`add_to_team`, `mark_drafted`, `load`);
* `src/fantrax_assistant/suggest.py` — the `PlayerRecommendationEngine`
  scoring pipeline (`calculate_*`, `get_score_breakdown`,
  `get_recommendations`).

Modelling conventions:

* Python strings that undergo lower/strip/split/substring processing are
  `List Char`; strings used only with `==` / set membership stay `String`.
* Python floats are modelled as `ℚ` (all the arithmetic the claims mention is
  exact decimal arithmetic, so rationals are a faithful value model);
  `round(x, 2)` is modelled as round-half-to-even at two decimals
  (`pyRound2`), Python's documented rounding mode.
* `dict.get(key, default)` on a record-shaped dict is modelled by an
  `Option` field read with `Option.getD default`, or by a total field when
  the enrichment step always writes the key.
* Code that can raise a Python exception is modelled in `Except PyErr`.
-/

/-! ### Identity Resolver: `DraftConfig._fuzzy_match_name` (config.py lines 65-93) -/

/-- A Python string under text processing: its character list. -/
abbrev PyStr := List Char

/-- Coerce a Lean string literal to the `List Char` model. -/
def chars (s : String) : PyStr := s.data

/-- `str.lower()`: lowercase every character. -/
def lowerStr (s : PyStr) : PyStr := s.map Char.toLower

/-- `str.strip()`: drop leading and trailing whitespace. -/
def stripStr (s : PyStr) : PyStr :=
  ((s.dropWhile Char.isWhitespace).reverse.dropWhile Char.isWhitespace).reverse

/-- Python's `needle in hay` substring test, as a Bool. -/
def containsSub (needle hay : PyStr) : Bool := decide (needle <:+: hay)

/-- Worker for `splitWs`: accumulates the current (reversed) token. -/
def splitWsGo : PyStr → PyStr → List PyStr
  | [], acc => if acc.isEmpty then [] else [acc.reverse]
  | c :: rest, acc =>
    if c.isWhitespace then
      if acc.isEmpty then splitWsGo rest [] else acc.reverse :: splitWsGo rest []
    else splitWsGo rest (c :: acc)

/-- `str.split()` with no argument: split on whitespace runs, no empty tokens. -/
def splitWs (s : PyStr) : List PyStr := splitWsGo s []

/-- `DraftConfig._fuzzy_match_name(search_name, candidate_name)`, translated
branch by branch from config.py lines 65-93. -/
def fuzzyMatchName (searchName candidateName : PyStr) : Bool :=
  let searchLower := stripStr (lowerStr searchName)
  let candidateLower := stripStr (lowerStr candidateName)
  if searchLower = candidateLower then true
  else if containsSub searchLower candidateLower then true
  else if containsSub candidateLower searchLower then true
  else
    (splitWs searchLower).all fun sp =>
      (splitWs candidateLower).any fun cp => containsSub sp cp

/-- The spec's matching policy for the Identity Resolver, written from the
spec's words (§4.1): after lowercasing and stripping, (1) equality, or
(2) containment in either direction, or (3) every query token is a substring
of some candidate token. Used to compare against `fuzzyMatchName`. -/
def resolverSpecMatches (searchName candidateName : PyStr) : Prop :=
  let q := stripStr (lowerStr searchName)
  let c := stripStr (lowerStr candidateName)
  q = c ∨ q <:+: c ∨ c <:+: q ∨
    ∀ sp ∈ splitWs q, ∃ cp ∈ splitWs c, sp <:+: cp

/-- C8: the code's fuzzy matcher decides exactly the spec's matching policy. -/
theorem fuzzyMatchName_iff_resolverSpec (searchName candidateName : PyStr) :
    fuzzyMatchName searchName candidateName = true ↔
      resolverSpecMatches searchName candidateName := by
  unfold fuzzyMatchName resolverSpecMatches containsSub
  dsimp only
  split_ifs with h1 h2 h3
  · simp only [true_iff]
    exact Or.inl h1
  · simp only [decide_eq_true_eq] at h2
    simp only [true_iff]
    exact Or.inr (Or.inl h2)
  · simp only [decide_eq_true_eq] at h3
    simp only [true_iff]
    exact Or.inr (Or.inr (Or.inl h3))
  · simp only [decide_eq_true_eq] at h2 h3
    simp only [List.all_eq_true, List.any_eq_true, decide_eq_true_eq]
    constructor
    · intro h
      exact Or.inr (Or.inr (Or.inr fun sp hsp => h sp hsp))
    · rintro (h | h | h | h)
      · exact absurd h h1
      · exact absurd h h2
      · exact absurd h h3
      · exact fun sp hsp => h sp hsp

/-! ### Draft Ledger: `DraftState` (draft_state.py)

`DraftState.add_to_team` and `mark_drafted` compare names with plain `==` /
set membership, so ledger names are `String`. `teams` is a Python dict from
team name to roster list; it is modelled as an association list in insertion
order (a fresh key is appended at the end, exactly what
`self.teams[team_name] = []` does). `drafted_players` is a `Finset String`.
-/

/-- A roster entry: the projection `add_to_team` stores (draft_state.py
lines 76-83). The numeric fields come from `player.get(...)` and may be
absent in the source dict. -/
structure RosterEntry where
  player : String
  position : String
  team : String
  adp : Option ℚ
  fpts : Option ℚ
  fpg : Option ℚ
deriving DecidableEq, Repr

/-- The in-memory `DraftState` (draft_state.py lines 11-16; the
`state_file` path is persistence plumbing and carries no ledger state). -/
structure DraftStateRec where
  teams : List (String × List RosterEntry)
  myTeam : String
  drafted : Finset String
deriving DecidableEq

/-- Dict lookup on the `teams` association list: first entry with the key. -/
def lookupTeam : List (String × List RosterEntry) → String → Option (List RosterEntry)
  | [], _ => none
  | kv :: rest, t => if kv.1 = t then some kv.2 else lookupTeam rest t

/-- `DraftState.get_team`: `self.teams.get(team_name, [])`. -/
def rosterOf (s : DraftStateRec) (t : String) : List RosterEntry :=
  (lookupTeam s.teams t).getD []

/-- `if team_name not in self.teams: self.teams[team_name] = []`
(draft_state.py lines 60-61): insert an empty roster for a missing key. -/
def ensureTeam (s : DraftStateRec) (t : String) : DraftStateRec :=
  if (lookupTeam s.teams t).isSome then s
  else { s with teams := s.teams ++ [(t, [])] }

/-- `self.teams[team_name].append(player_data)`: replace the roster at key
`t` by itself with `p` appended. -/
def appendToRoster (l : List (String × List RosterEntry)) (t : String)
    (p : RosterEntry) : List (String × List RosterEntry) :=
  l.map fun kv => if kv.1 = t then (kv.1, kv.2 ++ [p]) else kv

/-- `DraftState.add_to_team(player, team_name)` (draft_state.py lines
58-87): ensure the team key exists, reject a globally drafted name, reject a
name already on the target roster, otherwise append the entry and record the
name as drafted. Returns the Python `bool` result paired with the new
state. The `self.save()` call is persistence plumbing, not ledger state. -/
def addToTeam (s : DraftStateRec) (p : RosterEntry) (t : String) :
    Bool × DraftStateRec :=
  let s1 := ensureTeam s t
  if p.player ∈ s1.drafted then (false, s1)
  else if (rosterOf s1 t).any (fun q => q.player = p.player) then (false, s1)
  else
    (true, { s1 with
      teams := appendToRoster s1.teams t p,
      drafted := insert p.player s1.drafted })

/-- `DraftState.mark_drafted(player_name)` (draft_state.py lines 98-101). -/
def markDrafted (s : DraftStateRec) (n : String) : DraftStateRec :=
  { s with drafted := insert n s.drafted }

/-- One claim operation of the ledger. -/
inductive DraftOp where
  | add (p : RosterEntry) (t : String)
  | mark (n : String)
deriving DecidableEq

/-- Apply one operation, keeping the state (the Bool result of a failed
`add_to_team` is reported to the caller but the state object lives on). -/
def applyOp (s : DraftStateRec) : DraftOp → DraftStateRec
  | .add p t => (addToTeam s p t).2
  | .mark n => markDrafted s n

/-- Run a sequence of claim operations left to right. -/
def runOps (s : DraftStateRec) : List DraftOp → DraftStateRec
  | [] => s
  | op :: rest => runOps (applyOp s op) rest

/-- The default first-run state (draft_state.py lines 29-31): a single
party "Team 1" with an empty roster and nothing drafted. -/
def initialDraftState : DraftStateRec :=
  ⟨[("Team 1", [])], "Team 1", ∅⟩

/-- The names marked as drafted externally (via `mark_drafted`) in an
operation sequence. -/
def extMarks : List DraftOp → Finset String
  | [] => ∅
  | .mark n :: rest => insert n (extMarks rest)
  | .add _ _ :: rest => extMarks rest

/-- All names on any roster of a teams map. -/
def rosterNames (l : List (String × List RosterEntry)) : Finset String :=
  l.foldr (fun kv acc => (kv.2.map (·.player)).toFinset ∪ acc) ∅

/-! #### Ledger lemmas -/

theorem lookupTeam_append_of_isSome {l : List (String × List RosterEntry)}
    {t : String} (l2 : List (String × List RosterEntry))
    (h : (lookupTeam l t).isSome) :
    lookupTeam (l ++ l2) t = lookupTeam l t := by
  induction l with
  | nil => simp [lookupTeam] at h
  | cons kv rest ih =>
    by_cases hk : kv.1 = t
    · simp [lookupTeam, hk]
    · simp only [lookupTeam, hk, if_false, List.cons_append] at h ⊢
      exact ih h

theorem lookupTeam_append_of_none {l : List (String × List RosterEntry)}
    {t : String} (l2 : List (String × List RosterEntry))
    (h : lookupTeam l t = none) :
    lookupTeam (l ++ l2) t = lookupTeam l2 t := by
  induction l with
  | nil => simp
  | cons kv rest ih =>
    by_cases hk : kv.1 = t
    · simp [lookupTeam, hk] at h
    · simp only [lookupTeam, hk, if_false, List.cons_append] at h ⊢
      exact ih h

theorem appendToRoster_cons (kv : String × List RosterEntry)
    (rest : List (String × List RosterEntry)) (t : String) (p : RosterEntry) :
    appendToRoster (kv :: rest) t p =
      (if kv.1 = t then (kv.1, kv.2 ++ [p]) else kv) :: appendToRoster rest t p := rfl

theorem rosterNames_cons (kv : String × List RosterEntry)
    (rest : List (String × List RosterEntry)) :
    rosterNames (kv :: rest) = (kv.2.map (·.player)).toFinset ∪ rosterNames rest := rfl

theorem rosterOf_ensureTeam (s : DraftStateRec) (t t' : String) :
    rosterOf (ensureTeam s t) t' = rosterOf s t' := by
  unfold ensureTeam
  split
  · rfl
  · unfold rosterOf
    cases h2 : lookupTeam s.teams t' with
    | some r =>
      rw [show ({ s with teams := s.teams ++ [(t, [])] } : DraftStateRec).teams
          = s.teams ++ [(t, [])] from rfl,
        lookupTeam_append_of_isSome _ (by simp [h2]), h2]
    | none =>
      rw [show ({ s with teams := s.teams ++ [(t, [])] } : DraftStateRec).teams
          = s.teams ++ [(t, [])] from rfl,
        lookupTeam_append_of_none _ h2]
      by_cases h3 : t = t' <;> simp [lookupTeam, h3]

theorem drafted_ensureTeam (s : DraftStateRec) (t : String) :
    (ensureTeam s t).drafted = s.drafted := by
  unfold ensureTeam; split <;> rfl

theorem myTeam_ensureTeam (s : DraftStateRec) (t : String) :
    (ensureTeam s t).myTeam = s.myTeam := by
  unfold ensureTeam; split <;> rfl

theorem rosterNames_append (l1 l2 : List (String × List RosterEntry)) :
    rosterNames (l1 ++ l2) = rosterNames l1 ∪ rosterNames l2 := by
  induction l1 with
  | nil => simp [rosterNames]
  | cons kv rest ih =>
    simp only [rosterNames, List.foldr_cons, List.cons_append] at ih ⊢
    rw [ih, Finset.union_assoc]

theorem rosterNames_ensureTeam (s : DraftStateRec) (t : String) :
    rosterNames (ensureTeam s t).teams = rosterNames s.teams := by
  unfold ensureTeam
  split
  · rfl
  · simp [rosterNames_append, rosterNames]

theorem lookupTeam_ensureTeam_isSome (s : DraftStateRec) (t : String) :
    (lookupTeam (ensureTeam s t).teams t).isSome := by
  by_cases h : (lookupTeam s.teams t).isSome
  · simp [ensureTeam, h]
  · have hn : lookupTeam s.teams t = none := by
      cases hh : lookupTeam s.teams t with
      | none => rfl
      | some r => rw [hh] at h; simp at h
    rw [show ensureTeam s t = { s with teams := s.teams ++ [(t, [])] } from by
        unfold ensureTeam; rw [if_neg h]]
    rw [show ({ s with teams := s.teams ++ [(t, [])] } : DraftStateRec).teams
        = s.teams ++ [(t, [])] from rfl,
      lookupTeam_append_of_none _ hn]
    simp [lookupTeam]

theorem lookupTeam_appendToRoster (l : List (String × List RosterEntry))
    (t : String) (p : RosterEntry) (t' : String) :
    lookupTeam (appendToRoster l t p) t' =
      if t' = t then (lookupTeam l t').map (· ++ [p]) else lookupTeam l t' := by
  induction l with
  | nil => simp [appendToRoster, lookupTeam]
  | cons kv rest ih =>
    rw [appendToRoster_cons]
    by_cases hk : kv.1 = t
    · rw [if_pos hk]
      by_cases ht : kv.1 = t'
      · have ht2 : t' = t := by rw [← ht, hk]
        unfold lookupTeam
        rw [if_pos ht, if_pos ht, if_pos ht2]
        rfl
      · have ht2 : ¬ t' = t := fun he => ht (by rw [hk, he])
        unfold lookupTeam
        rw [if_neg ht, if_neg ht, ih, if_neg ht2]
    · rw [if_neg hk]
      by_cases ht : kv.1 = t'
      · have ht2 : ¬ t' = t := fun he => hk (by rw [ht, he])
        unfold lookupTeam
        rw [if_pos ht, if_pos ht, if_neg ht2]
      · unfold lookupTeam
        rw [if_neg ht, if_neg ht, ih]

theorem rosterNames_appendToRoster (l : List (String × List RosterEntry))
    (t : String) (p : RosterEntry) :
    rosterNames (appendToRoster l t p) =
      rosterNames l ∪ (if (lookupTeam l t).isSome then {p.player} else ∅) := by
  induction l with
  | nil => simp [appendToRoster, rosterNames, lookupTeam]
  | cons kv rest ih =>
    rw [appendToRoster_cons]
    by_cases hk : kv.1 = t
    · rw [if_pos hk, rosterNames_cons, rosterNames_cons, ih]
      have hs : (lookupTeam (kv :: rest) t).isSome := by
        rw [show lookupTeam (kv :: rest) t
            = if kv.1 = t then some kv.2 else lookupTeam rest t from rfl,
          if_pos hk]
        rfl
      rw [if_pos hs]
      dsimp only
      have hnames : (((kv.2 ++ [p]).map (·.player)).toFinset : Finset String)
          = (kv.2.map (·.player)).toFinset ∪ {p.player} := by
        simp [List.map_append]
      rw [hnames]
      by_cases hl : (lookupTeam rest t).isSome
      · rw [if_pos hl]
        ext x
        simp only [Finset.mem_union, Finset.mem_singleton, Finset.not_mem_empty]
        tauto
      · rw [if_neg hl]
        ext x
        simp only [Finset.mem_union, Finset.mem_singleton, Finset.not_mem_empty]
        tauto
    · rw [if_neg hk, rosterNames_cons, rosterNames_cons, ih]
      have hs : lookupTeam (kv :: rest) t = lookupTeam rest t := by
        rw [show lookupTeam (kv :: rest) t
            = if kv.1 = t then some kv.2 else lookupTeam rest t from rfl,
          if_neg hk]
      rw [hs, Finset.union_assoc]

theorem player_mem_rosterNames {l : List (String × List RosterEntry)}
    {t : String} {r : List RosterEntry} (h : lookupTeam l t = some r)
    {e : RosterEntry} (he : e ∈ r) : e.player ∈ rosterNames l := by
  induction l with
  | nil => simp [lookupTeam] at h
  | cons kv rest ih =>
    rw [rosterNames_cons]
    rw [Finset.mem_union]
    by_cases hk : kv.1 = t
    · unfold lookupTeam at h
      rw [if_pos hk] at h
      have hr : kv.2 = r := Option.some.inj h
      subst hr
      exact Or.inl (by simp only [List.mem_toFinset, List.mem_map]; exact ⟨e, he, rfl⟩)
    · unfold lookupTeam at h
      rw [if_neg hk] at h
      exact Or.inr (ih h)

theorem mem_rosterNames_of_mem_rosterOf {s : DraftStateRec} {t' : String}
    {n : String} (h : n ∈ (rosterOf s t').map (·.player)) :
    n ∈ rosterNames s.teams := by
  unfold rosterOf at h
  cases hl : lookupTeam s.teams t' with
  | none => simp [hl] at h
  | some r =>
    rw [hl] at h
    simp only [Option.getD_some, List.mem_map] at h
    obtain ⟨e, he, rfl⟩ := h
    exact player_mem_rosterNames hl he

/-- The ledger invariant, tracked together with the accumulated set of
externally-marked names: no name is on two different rosters, and the
drafted set is exactly the roster names plus the marks. -/
def LedgerInv (s : DraftStateRec) (marks : Finset String) : Prop :=
  (∀ t1 t2, t1 ≠ t2 → ∀ n, n ∈ (rosterOf s t1).map (·.player) →
      n ∉ (rosterOf s t2).map (·.player))
  ∧ s.drafted = rosterNames s.teams ∪ marks

theorem ledgerInv_ensureTeam {s : DraftStateRec} {m : Finset String}
    (h : LedgerInv s m) (t : String) : LedgerInv (ensureTeam s t) m := by
  obtain ⟨hdisj, hdraft⟩ := h
  refine ⟨?_, ?_⟩
  · intro t1 t2 hne n h1
    rw [rosterOf_ensureTeam] at h1 ⊢
    exact hdisj t1 t2 hne n h1
  · rw [drafted_ensureTeam, rosterNames_ensureTeam]
    exact hdraft

theorem ledgerInv_markDrafted {s : DraftStateRec} {m : Finset String}
    (h : LedgerInv s m) (n : String) :
    LedgerInv (markDrafted s n) (insert n m) := by
  obtain ⟨hdisj, hdraft⟩ := h
  refine ⟨hdisj, ?_⟩
  show insert n s.drafted = rosterNames s.teams ∪ insert n m
  rw [hdraft]
  ext x
  simp only [Finset.mem_insert, Finset.mem_union]
  tauto

theorem rosterOf_addToTeam_success {s : DraftStateRec} {p : RosterEntry}
    {t : String} (hs : (lookupTeam s.teams t).isSome) (t' : String) :
    rosterOf ({ s with
        teams := appendToRoster s.teams t p,
        drafted := insert p.player s.drafted }) t' =
      if t' = t then rosterOf s t' ++ [p] else rosterOf s t' := by
  unfold rosterOf
  rw [show ({ s with
        teams := appendToRoster s.teams t p,
        drafted := insert p.player s.drafted } : DraftStateRec).teams
      = appendToRoster s.teams t p from rfl]
  rw [lookupTeam_appendToRoster]
  by_cases ht : t' = t
  · rw [if_pos ht, if_pos ht]
    subst ht
    obtain ⟨r, hr⟩ := Option.isSome_iff_exists.mp hs
    rw [hr]
    rfl
  · rw [if_neg ht, if_neg ht]

theorem ledgerInv_addToTeam {s : DraftStateRec} {m : Finset String}
    (h : LedgerInv s m) (p : RosterEntry) (t : String) :
    LedgerInv (addToTeam s p t).2 m := by
  have h1 := ledgerInv_ensureTeam h t
  unfold addToTeam
  dsimp only
  by_cases hd : p.player ∈ (ensureTeam s t).drafted
  · rw [if_pos hd]
    exact h1
  · rw [if_neg hd]
    by_cases hdup :
        (rosterOf (ensureTeam s t) t).any (fun q => q.player = p.player) = true
    · rw [if_pos hdup]
      exact h1
    · rw [if_neg hdup]
      dsimp only
      set s1 := ensureTeam s t with hs1
      obtain ⟨hdisj, hdraft⟩ := h1
      have hlook : (lookupTeam s1.teams t).isSome := lookupTeam_ensureTeam_isSome s t
      have hnotR : p.player ∉ rosterNames s1.teams := fun hc => by
        rw [hdraft] at hd
        exact hd (Finset.mem_union_left _ hc)
      refine ⟨?_, ?_⟩
      · intro t1 t2 hne n hn1
        rw [rosterOf_addToTeam_success hlook] at hn1 ⊢
        by_cases h1t : t1 = t
        · rw [if_pos h1t] at hn1
          have h2t : ¬ t2 = t := fun hc => hne (by rw [h1t, hc])
          rw [if_neg h2t]
          simp only [List.map_append, List.mem_append, List.map_cons,
            List.map_nil, List.mem_singleton] at hn1
          rcases hn1 with hn1 | hn1
          · subst h1t
            intro hc
            exact hdisj t1 t2 hne n hn1 hc
          · subst hn1
            intro hc
            exact hnotR (mem_rosterNames_of_mem_rosterOf hc)
        · rw [if_neg h1t] at hn1
          by_cases h2t : t2 = t
          · rw [if_pos h2t]
            simp only [List.map_append, List.mem_append, List.map_cons,
              List.map_nil, List.mem_singleton]
            push_neg
            constructor
            · subst h2t
              exact hdisj t1 t2 hne n hn1
            · intro hc
              subst hc
              exact hnotR (mem_rosterNames_of_mem_rosterOf hn1)
          · rw [if_neg h2t]
            exact hdisj t1 t2 hne n hn1
      · show insert p.player s1.drafted = rosterNames (appendToRoster s1.teams t p) ∪ m
        rw [rosterNames_appendToRoster, if_pos hlook, hdraft]
        ext x
        simp only [Finset.mem_insert, Finset.mem_union, Finset.mem_singleton]
        tauto

theorem ledgerInv_runOps (ops : List DraftOp) :
    ∀ (s : DraftStateRec) (m : Finset String), LedgerInv s m →
      LedgerInv (runOps s ops) (m ∪ extMarks ops) := by
  induction ops with
  | nil =>
    intro s m h
    simpa [runOps, extMarks] using h
  | cons op rest ih =>
    intro s m h
    cases op with
    | add p t =>
      have h2 := ih (applyOp s (.add p t)) m (ledgerInv_addToTeam h p t)
      simpa [runOps, extMarks] using h2
    | mark n =>
      have h2 := ih (applyOp s (.mark n)) (insert n m) (ledgerInv_markDrafted h n)
      have hm : insert n m ∪ extMarks rest = m ∪ extMarks (.mark n :: rest) := by
        rw [show extMarks (.mark n :: rest) = insert n (extMarks rest) from rfl]
        ext x
        simp only [Finset.mem_insert, Finset.mem_union]
        tauto
      rw [show runOps s (.mark n :: rest) = runOps (applyOp s (.mark n)) rest from rfl,
        ← hm]
      exact h2

theorem ledgerInv_initial : LedgerInv initialDraftState ∅ := by
  constructor
  · intro t1 t2 hne n h1
    unfold initialDraftState rosterOf lookupTeam at h1
    dsimp only at h1
    split at h1 <;> simp [lookupTeam] at h1
  · show (∅ : Finset String) = rosterNames [("Team 1", [])] ∪ ∅
    rw [rosterNames_cons]
    simp [rosterNames]

theorem addToTeam_fails_of_drafted (s : DraftStateRec) (p : RosterEntry)
    (t : String) (h : p.player ∈ s.drafted) : (addToTeam s p t).1 = false := by
  unfold addToTeam
  dsimp only
  rw [if_pos (by rw [drafted_ensureTeam]; exact h)]

/-- Concrete roster entry used in the C1 witness. -/
def entAlice : RosterEntry := ⟨"Alice", "F", "AAA", none, none, none⟩

/-- Concrete operation sequence used in the C1 witness. -/
def opsC1 : List DraftOp := [.add entAlice "Team 1", .mark "Bob"]

/-- C1: starting from the empty ledger, after any sequence of claim
operations no name is on two different parties' rosters, a claim of an
already-drafted name returns `False`, and `drafted_players` equals the
union of all roster names and the externally-marked names. -/
theorem ledger_single_claim_invariant (ops : List DraftOp) :
    (∀ t1 t2, t1 ≠ t2 → ∀ n,
        n ∈ (rosterOf (runOps initialDraftState ops) t1).map (·.player) →
        n ∉ (rosterOf (runOps initialDraftState ops) t2).map (·.player)) ∧
    (∀ p t, p.player ∈ (runOps initialDraftState ops).drafted →
        (addToTeam (runOps initialDraftState ops) p t).1 = false) ∧
    (runOps initialDraftState ops).drafted =
      rosterNames (runOps initialDraftState ops).teams ∪ extMarks ops := by
  obtain ⟨hdisj, hdraft⟩ := ledgerInv_runOps ops initialDraftState ∅ ledgerInv_initial
  refine ⟨hdisj, ?_, ?_⟩
  · intro p t hp
    exact addToTeam_fails_of_drafted _ p t hp
  · rw [hdraft]
    ext x
    simp only [Finset.mem_union, Finset.not_mem_empty]
    tauto

/-- C1 witness: the invariant instantiated on a concrete run (Alice claimed
by Team 1, Bob marked externally). -/
theorem ledger_single_claim_invariant_witness :
    ("Alice" ∉ (rosterOf (runOps initialDraftState opsC1) "Team 2").map (·.player)) ∧
    (addToTeam (runOps initialDraftState opsC1) entAlice "Team 9").1 = false ∧
    (runOps initialDraftState opsC1).drafted =
      rosterNames (runOps initialDraftState opsC1).teams ∪ extMarks opsC1 :=
  ⟨(ledger_single_claim_invariant opsC1).1 "Team 1" "Team 2" (by decide) "Alice" (by decide),
   (ledger_single_claim_invariant opsC1).2.1 entAlice "Team 9" (by decide),
   (ledger_single_claim_invariant opsC1).2.2⟩

/-- Concrete roster entry used for C2. -/
def entXavier : RosterEntry := ⟨"Xavier", "M", "BBB", none, none, none⟩

/-- Concrete pre-state for C2: "Xavier" already drafted externally. -/
def stateC2 : DraftStateRec := markDrafted initialDraftState "Xavier"

/-- C2 counterexample: a rejected `add_to_team` call does NOT leave the
ledger exactly unchanged — claiming already-drafted "Xavier" for the absent
party "Team 2" returns `False` yet inserts a new empty "Team 2" entry into
the teams mapping, changing its key set. -/
theorem addToTeam_failure_mutates_counterexample :
    (addToTeam stateC2 entXavier "Team 2").1 = false ∧
    (addToTeam stateC2 entXavier "Team 2").2 ≠ stateC2 ∧
    (addToTeam stateC2 entXavier "Team 2").2.teams =
      [("Team 1", []), ("Team 2", [])] := by decide

/-- C2 amended: when `add_to_team` fails, the drafted set, `my_team` and
every roster are unchanged; the only surviving mutation is the insertion of
an empty roster under the target team name when that key was absent
(the state equals `ensureTeam` of the pre-state). -/
theorem addToTeam_failure_state (s : DraftStateRec) (p : RosterEntry)
    (t : String) (h : (addToTeam s p t).1 = false) :
    (addToTeam s p t).2 = ensureTeam s t ∧
    (addToTeam s p t).2.drafted = s.drafted ∧
    (addToTeam s p t).2.myTeam = s.myTeam ∧
    ∀ t', rosterOf (addToTeam s p t).2 t' = rosterOf s t' := by
  have hmain : (addToTeam s p t).2 = ensureTeam s t := by
    unfold addToTeam
    dsimp only
    split_ifs with h1 h2
    · rfl
    · rfl
    · exfalso
      unfold addToTeam at h
      dsimp only at h
      rw [if_neg h1, if_neg h2] at h
      simp at h
  rw [hmain]
  exact ⟨rfl, drafted_ensureTeam s t, myTeam_ensureTeam s t,
    fun t' => rosterOf_ensureTeam s t t'⟩

/-- C2 witness: the amended statement at the concrete C2 failure. -/
theorem addToTeam_failure_state_witness :
    (addToTeam stateC2 entXavier "Team 2").2 = ensureTeam stateC2 "Team 2" ∧
    (addToTeam stateC2 entXavier "Team 2").2.drafted = stateC2.drafted ∧
    (addToTeam stateC2 entXavier "Team 2").2.myTeam = stateC2.myTeam ∧
    ∀ t', rosterOf (addToTeam stateC2 entXavier "Team 2").2 t'
      = rosterOf stateC2 t' :=
  addToTeam_failure_state stateC2 entXavier "Team 2" (by decide)

/-- How `DraftState.load` (draft_state.py lines 18-36) can see the persisted
file: absent, unloadable (unreadable file or invalid JSON, i.e. the `except`
branch), or parsed into fields. -/
inductive LoadOutcome where
  | fileMissing
  | loadFailed
  | loaded (teams : List (String × List RosterEntry)) (myTeam : String)
      (drafted : List String)

/-- `DraftState.__init__` + `load`: the state after construction. The
constructor field defaults are all overwritten by `load`, which installs
the first-run default both when the file is missing and in the `except`
branch, and otherwise copies the parsed fields. -/
def loadDraftState : LoadOutcome → DraftStateRec
  | .fileMissing => ⟨[("Team 1", [])], "Team 1", ∅⟩
  | .loadFailed => ⟨[("Team 1", [])], "Team 1", ∅⟩
  | .loaded t m d => ⟨t, m, d.toFinset⟩

/-- C10: when the persisted state cannot be loaded (unreadable file or
invalid JSON), construction succeeds and yields exactly the default state —
a single party "Team 1" with an empty roster, `my_team = "Team 1"`, and an
empty drafted set — identical to the first-run state, so previously
persisted claims are silently dropped. -/
theorem loadDraftState_corrupt_is_default :
    loadDraftState .loadFailed =
      ({ teams := [("Team 1", [])], myTeam := "Team 1",
         drafted := ∅ } : DraftStateRec) ∧
    loadDraftState .loadFailed = loadDraftState .fileMissing :=
  ⟨rfl, rfl⟩

/-! ### Recommendation Engine: `PlayerRecommendationEngine` (suggest.py)

Names flow through the fuzzy matcher here, so they are `PyStr`. All numeric
data is `ℚ`. A Python exception escaping a scoring call is modelled in
`Except PyErr`.
-/

/-- A Python exception escaping the engine. `nameError` stands for the
`NameError` raised at suggest.py line 80, where `calculate_form_value`
reads the undefined locals `days` and `starts`. -/
inductive PyErr where
  | nameError
deriving DecidableEq, Repr

/-- `round(x, 2)`'s integer core: round half to even. -/
def roundHalfEven (q : ℚ) : ℤ :=
  let f := ⌊q⌋
  let r := q - f
  if r < 1/2 then f
  else if 1/2 < r then f + 1
  else if f % 2 = 0 then f else f + 1

/-- Python's `round(x, 2)` on the exact-rational value model. -/
def pyRound2 (q : ℚ) : ℚ := (roundHalfEven (q * 100) : ℚ) / 100

/-- A season-stats record (`current_stats.json` entry); only the fields the
engine reads. A missing inner key defaults to 0 and is folded into the
field value; an absent or empty (falsy) stats dict is `none` at the use
site. -/
structure SeasonStats where
  matches_played : ℚ
  goals : ℚ
deriving DecidableEq, Repr

/-- A ranking/candidate record (an `adp_rankings.json` entry, optionally
enriched with `stats` and `injury` by `get_all_available_players`).
`injurySeverity` is `player.get('injury', {}).get('severity', 'Healthy')`:
`none` models a missing injury dict. -/
structure Player where
  player : PyStr
  position : PyStr
  team : PyStr
  adp : Option ℚ
  fpg : Option ℚ
  stats : Option SeasonStats
  injurySeverity : Option PyStr
deriving DecidableEq, Repr

/-- The league configuration (`league_config.json`): position weights under
`scoring_rules.positions` (weight default 1.0 folded into lookup), the
`top_8_clubs` list, the `non_top_8_most_goals_bonus` (default 0 folded into
the field), and `roster_rules` position caps. -/
structure LeagueConfig where
  positions : List (PyStr × ℚ)
  top8Clubs : List PyStr
  nonTop8Bonus : ℚ
  rosterRules : List (PyStr × ℚ)
deriving DecidableEq, Repr

/-- The loaded `DraftConfig` data as the engine sees it: `rankings` must be
present for the engine to run at all (load_all_data fails otherwise);
`recent_form.json`, `current_stats.json`, `injuries.json` and
`afcon_callups.json` may each be absent (`None` / missing key ⇒ `none`). -/
structure DraftCfg where
  rankings : List Player
  leagueConfig : Option LeagueConfig
  recentForm : Option (List (PyStr × ℚ))
  statsDb : Option (List (PyStr × SeasonStats))
  injuriesDb : Option (List (PyStr × PyStr))
  afconPlayers : Option (List PyStr)
deriving DecidableEq, Repr

/-- Python dict lookup in an association list keyed by strings. -/
def lookupQ (l : List (PyStr × ℚ)) (k : PyStr) : Option ℚ :=
  (l.find? fun e => e.1 == k).map (·.2)

/-- `DraftConfig.get_player_afcon_status(...)['at_afcon']` (config.py lines
106-121): false when AFCON data or its `players` key is missing, else any
fuzzy match. -/
def atAfcon (c : DraftCfg) (n : PyStr) : Bool :=
  match c.afconPlayers with
  | none => false
  | some l => l.any fun a => fuzzyMatchName n a

/-- `DraftConfig.get_player_stats` (config.py lines 95-104). -/
def getPlayerStats (c : DraftCfg) (n : PyStr) : Option SeasonStats :=
  match c.statsDb with
  | none => none
  | some l => (l.find? fun e => fuzzyMatchName n e.1).map (·.2)

/-- `DraftConfig.get_player_injury(...)['severity']` (config.py lines
124-133): 'Unknown' when injury data is missing entirely, the matched
record's severity on a fuzzy match, else 'Healthy'. -/
def getPlayerInjury (c : DraftCfg) (n : PyStr) : PyStr :=
  match c.injuriesDb with
  | none => chars "Unknown"
  | some l =>
    match l.find? fun e => fuzzyMatchName n e.1 with
    | some e => e.2
    | none => chars "Healthy"

/-- `DraftConfig.get_all_available_players(drafted_players)` (config.py
lines 146-172): keep rankings entries whose name fuzzy-matches no drafted
name, enriching each with stats and injury severity. -/
def getAllAvailablePlayers (c : DraftCfg) (drafted : List PyStr) : List Player :=
  (c.rankings.filter fun p => !(drafted.any fun d => fuzzyMatchName p.player d)).map
    fun p => { p with
      stats := getPlayerStats c p.player,
      injurySeverity := some (getPlayerInjury c p.player) }

/-- The `PlayerRecommendationEngine` constructor state (suggest.py lines
9-12). -/
structure Engine where
  config : DraftCfg
  myTeam : List Player
  drafted : List PyStr
deriving DecidableEq, Repr

/-- `get_position_weight` (suggest.py lines 14-23). -/
def Engine.getPositionWeight (e : Engine) (position : PyStr) : ℚ :=
  match e.config.leagueConfig with
  | none => 1
  | some lc => (lookupQ lc.positions position).getD 1

/-- `get_top_8_clubs` (suggest.py lines 25-31). -/
def Engine.getTop8Clubs (e : Engine) : List PyStr :=
  match e.config.leagueConfig with
  | none => []
  | some lc => lc.top8Clubs

/-- `calculate_base_value` (suggest.py lines 33-47). -/
def Engine.calculateBaseValue (e : Engine) (p : Player) : ℚ :=
  let fpg := p.fpg.getD 0
  let posWeight := e.getPositionWeight p.position
  let normalized := min (fpg / 6 * 100) 100
  let adjusted := normalized * posWeight
  min (adjusted * 0.30) 30

/-- `calculate_adp_value` (suggest.py lines 50-62); `current_round` is
accepted and unused, exactly as in the source. -/
def Engine.calculateAdpValue (e : Engine) (p : Player) (currentRound : ℤ) : ℚ :=
  let adp := p.adp.getD 999
  let normalized := max 0 (100 - adp / 2)
  normalized * 0.07

/-- `calculate_form_value` (suggest.py lines 64-95). When a recent-form
record fuzzy-matches, return the normalized recent FP/G at weight 0.20.
Otherwise control reaches line 80, `min_starts = 5 if days >= 60 else 3`,
and `days` is not defined anywhere in scope: the call raises `NameError`
and the season-stats fallback on lines 85-95 is unreachable. -/
def Engine.calculateFormValue (e : Engine) (p : Player) : Except PyErr ℚ :=
  match e.config.recentForm with
  | some entries =>
    match entries.find? (fun fp => fuzzyMatchName p.player fp.1) with
    | some fp => .ok (min (fp.2 / 6 * 100) 100 * 0.20)
    | none => .error .nameError
  | none => .error .nameError

/-- `calculate_club_bonus` (suggest.py lines 97-123). -/
def Engine.calculateClubBonus (e : Engine) (p : Player) : ℚ :=
  match p.stats with
  | none => 0
  | some st =>
    let top8 := e.getTop8Clubs
    match e.config.leagueConfig with
    | none => 0
    | some lc =>
      if p.team ∉ top8 ∧ 5 ≤ st.goals then lc.nonTop8Bonus else 0

/-- The availability multiplier table of `calculate_missed_time`
(suggest.py lines 139-150), with the dict-get default 0.9. -/
def missedTimeMult (severity : PyStr) : ℚ :=
  if severity = chars "Healthy" then 1.0
  else if severity = chars "Questionable" then 0.85
  else if severity = chars "Doubtful" then 0.6
  else if severity = chars "Short Term" then 0.4
  else if severity = chars "Medium Term" then 0.25
  else if severity = chars "Long Term" then 0.1
  else if severity = chars "Unknown" then 0.9
  else if severity = chars "Suspended" then 0.5
  else 0.9

/-- `calculate_missed_time` (suggest.py lines 125-151). -/
def Engine.calculateMissedTime (e : Engine) (p : Player) : ℚ :=
  let severity := p.injurySeverity.getD (chars "Healthy")
  if atAfcon e.config p.player then 0.3 * 15
  else missedTimeMult severity * 15

/-- `str.split(sep)` worker (keeps empty tokens, as Python does with an
explicit separator). -/
def splitOnCharGo (sep : Char) : PyStr → PyStr → List PyStr
  | [], acc => [acc.reverse]
  | c :: rest, acc =>
    if c = sep then acc.reverse :: splitOnCharGo sep rest []
    else splitOnCharGo sep rest (c :: acc)

/-- Python `s.split(sep)` for a single-character separator. -/
def splitOnChar (sep : Char) (s : PyStr) : List PyStr := splitOnCharGo sep s []

/-- `position_multiplier` (suggest.py lines 153-179). -/
def Engine.positionMultiplier (e : Engine) (p : Player) : ℚ :=
  let positionStr := p.position
  let baseMultiplier : ℚ :=
    if 'F' ∈ positionStr then 1.25
    else if 'M' ∈ positionStr then 0.75
    else if 'D' ∈ positionStr then 0.50
    else if 'G' ∈ positionStr then 0.25
    else 0.5
  let versatilityBonus : ℚ :=
    if ',' ∈ positionStr then
      1 + 0.15 * (((splitOnChar ',' positionStr).length : ℚ) - 1)
    else 1
  baseMultiplier * versatilityBonus

/-- `calculate_position_need` (suggest.py lines 181-205). -/
def Engine.calculatePositionNeed (e : Engine) (p : Player) : ℚ :=
  match e.config.leagueConfig with
  | none => 5.0
  | some lc =>
    let position := p.position
    let currentCount := e.myTeam.countP fun q => decide (position <:+: q.position)
    let maxCount := (lookupQ lc.rosterRules position).getD 0
    let pm := e.positionMultiplier p
    if maxCount ≤ (currentCount : ℚ) then 3.0 * pm
    else if currentCount = 0 then 15.0 * pm
    else 10.0 * pm

/-- `calculate_position_scarcity` (suggest.py lines 207-261). The in-place
stable descending `list.sort(key=fpg, reverse=True)` is `mergeSort` with
the non-strict descending comparison. -/
def Engine.calculatePositionScarcity (e : Engine) (p : Player) : ℚ :=
  let position := p.position
  let playerFpg := p.fpg.getD 0
  let positionPlayers := e.config.rankings.filter fun q =>
    decide (position <:+: q.position) && !(e.drafted.any fun d => d == q.player)
  if positionPlayers.length < 2 then 2.5
  else
    let sorted := positionPlayers.mergeSort
      fun a b => decide (b.fpg.getD 0 ≤ a.fpg.getD 0)
    match sorted.findIdx? (fun q => q.player == p.player) with
    | none => 1.0
    | some playerRank =>
      if playerRank < 5 then 2.0
      else
        let nextTierStart := playerRank + 1
        if sorted.length ≤ nextTierStart then 5.0
        else
          let nextTier := (sorted.drop nextTierStart).take 5
          let nextTierAvg :=
            (nextTier.map fun q => q.fpg.getD 0).sum / (nextTier.length : ℚ)
          if nextTierAvg = 0 then 5.0
          else
            let dropOff := (playerFpg - nextTierAvg) / nextTierAvg
            max (min (dropOff * 5.0) 5.0) 0.5

/-- `calculate_positional_value` (suggest.py lines 263-289). -/
def Engine.calculatePositionalValue (e : Engine) (p : Player) : ℚ :=
  let position := p.position
  let fpg := p.fpg.getD 0
  let positionPlayers := (e.config.rankings.filter fun q =>
    decide (position <:+: q.position)).map fun q => q.fpg.getD 0
  if positionPlayers.isEmpty then 2.5
  else
    let avgFpg := positionPlayers.sum / (positionPlayers.length : ℚ)
    if avgFpg = 0 then 2.5
    else
      let aboveAvg := (fpg - avgFpg) / avgFpg
      max 0 (min 5 ((aboveAvg + 1) / 2 * 5))

/-- `calculate_total_score` (suggest.py lines 291-304). -/
def Engine.calculateTotalScore (e : Engine) (p : Player) (currentRound : ℤ) :
    Except PyErr ℚ :=
  let base := e.calculateBaseValue p
  let clubBonus := e.calculateClubBonus p
  let adp := e.calculateAdpValue p currentRound
  match e.calculateFormValue p with
  | .error err => .error err
  | .ok form =>
    let injury := e.calculateMissedTime p
    let need := e.calculatePositionNeed p
    let scarcity := e.calculatePositionScarcity p
    let positional := e.calculatePositionalValue p
    .ok (pyRound2 (base + clubBonus + adp + form + injury + need + scarcity + positional))

/-- The availability multiplier table that `get_score_breakdown` reports
(suggest.py lines 332-337). Note it differs from `missedTimeMult` at
'Short Term' (0.7 vs 0.4) and 'Medium Term' (0.4 vs 0.25). -/
def breakdownMult (severity : PyStr) : ℚ :=
  if severity = chars "Healthy" then 1.0
  else if severity = chars "Questionable" then 0.85
  else if severity = chars "Doubtful" then 0.6
  else if severity = chars "Short Term" then 0.7
  else if severity = chars "Medium Term" then 0.4
  else if severity = chars "Long Term" then 0.1
  else if severity = chars "Unknown" then 0.9
  else if severity = chars "Suspended" then 0.5
  else 0.9

/-- The dict returned by `get_score_breakdown` (suggest.py lines 339-374),
field for field. -/
structure ScoreBreakdown where
  base_fpg : ℚ
  base_position_weight : ℚ
  base_normalized : ℚ
  base_value : ℚ
  club_bonus : ℚ
  adp_value_raw : ℚ
  adp_normalized : ℚ
  adp_value : ℚ
  form_matches : ℚ
  form_value : ℚ
  injury_status : PyStr
  injury_multiplier : ℚ
  injury_penalty : ℚ
  position_need : ℚ
  scarcity : ℚ
  positional_value : ℚ
  total : ℚ
deriving DecidableEq, Repr

/-- `get_score_breakdown` (suggest.py lines 306-374): recompute every
component and the displayed intermediate values. The `calculate_form_value`
call can raise, so the result is in `Except`. -/
def Engine.getScoreBreakdown (e : Engine) (p : Player) (currentRound : ℤ) :
    Except PyErr ScoreBreakdown :=
  let fpg := p.fpg.getD 0
  let position := p.position
  let adp := p.adp.getD 999
  let matchesPlayed := match p.stats with
    | some st => st.matches_played
    | none => 0
  let base := e.calculateBaseValue p
  let clubBonus := e.calculateClubBonus p
  let adpScore := e.calculateAdpValue p currentRound
  match e.calculateFormValue p with
  | .error err => .error err
  | .ok form =>
  let injury := e.calculateMissedTime p
  let need := e.calculatePositionNeed p
  let scarcity := e.calculatePositionScarcity p
  let positional := e.calculatePositionalValue p
  let posWeight := e.getPositionWeight position
  let baseNormalized := min (fpg / 6 * 100) 100
  let adpNormalized := max 0 (100 - adp / 2)
  let injuryStatus := p.injurySeverity.getD (chars "Healthy")
  let injuryMult := breakdownMult injuryStatus
  .ok
    { base_fpg := fpg
      base_position_weight := posWeight
      base_normalized := pyRound2 baseNormalized
      base_value := pyRound2 base
      club_bonus := pyRound2 clubBonus
      adp_value_raw := adp
      adp_normalized := pyRound2 adpNormalized
      adp_value := pyRound2 adpScore
      form_matches := matchesPlayed
      form_value := pyRound2 form
      injury_status := injuryStatus
      injury_multiplier := injuryMult
      injury_penalty := pyRound2 injury
      position_need := pyRound2 need
      scarcity := pyRound2 scarcity
      positional_value := pyRound2 positional
      total := pyRound2 (base + clubBonus + adpScore + form + injury + need
        + scarcity + positional) }

/-- The scoring loop of `get_recommendations` (suggest.py lines 381-384):
score each available player in order; the first raising player aborts the
whole call. -/
def Engine.scoreAll (e : Engine) (currentRound : ℤ) :
    List Player → Except PyErr (List (Player × ℚ))
  | [] => .ok []
  | p :: rest =>
    match e.calculateTotalScore p currentRound with
    | .error err => .error err
    | .ok s =>
      match e.scoreAll currentRound rest with
      | .error err => .error err
      | .ok others => .ok ((p, s) :: others)

/-- `get_recommendations(current_round, n)` (suggest.py lines 377-388):
filter to available players, score them, sort descending by score
(`list.sort(..., reverse=True)` = stable mergeSort on the non-strict
descending comparison), return the first `n`. -/
def Engine.getRecommendations (e : Engine) (currentRound : ℤ) (n : ℕ) :
    Except PyErr (List (Player × ℚ)) :=
  let available := getAllAvailablePlayers e.config e.drafted
  match e.scoreAll currentRound available with
  | .error err => .error err
  | .ok scored =>
    let sorted := scored.mergeSort fun a b => decide (b.2 ≤ a.2)
    .ok (sorted.take n)

/-- The parameter names of `PlayerRecommendationEngine.get_recommendations`
after `self` (suggest.py line 377). -/
def getRecommendationsParamNames : List String := ["current_round", "n"]

/-- The keyword arguments the `suggest` CLI command passes to
`get_recommendations` at draft.py line 110. -/
def suggestCallKeywords : List String := ["exclude_team", "ignore_position"]

/-- C6: the per-candidate draft-position component is
`max(0, 100 - adp/2) * 0.07` (the 7% factor, not the documented 15%), and
the unranked sentinel `adp = 999` scores exactly 0. -/
theorem adp_value_formula (e : Engine) (p : Player) (r : ℤ) :
    e.calculateAdpValue p r = max 0 (100 - p.adp.getD 999 / 2) * 0.07 ∧
    (p.adp.getD 999 = 999 → e.calculateAdpValue p r = 0) := by
  constructor
  · rfl
  · intro h
    unfold Engine.calculateAdpValue
    rw [h]
    norm_num

/-- Concrete engine with no data loaded, for small witnesses. -/
def engNoData : Engine := ⟨⟨[], none, none, none, none, none⟩, [], []⟩

/-- Concrete unranked player for the C6 witness. -/
def pAdp999 : Player := ⟨chars "Zed", chars "M", chars "CCC", some 999, none, none, none⟩

/-- C6 witness: the formula and the sentinel-zero consequence at a concrete
unranked player. -/
theorem adp_value_formula_witness :
    engNoData.calculateAdpValue pAdp999 1
      = max 0 (100 - pAdp999.adp.getD 999 / 2) * 0.07 ∧
    engNoData.calculateAdpValue pAdp999 1 = 0 :=
  ⟨(adp_value_formula engNoData pAdp999 1).1,
   (adp_value_formula engNoData pAdp999 1).2 (by decide)⟩

/-- Concrete player with no recent-form record, for C5. -/
def pNoForm : Player := ⟨chars "Nomatch Guy", chars "M", chars "CCC", none, none, none, none⟩

/-- Concrete engine whose `recent_form.json` is present but matches nothing. -/
def engEmptyForm : Engine := ⟨⟨[], none, some [], none, none, none⟩, [], []⟩

/-- C5: when no recent-form record resolves for the candidate —
whether `recent_form.json` is absent (`engNoData`) or present without a
matching entry (`engEmptyForm`) — `calculate_form_value` raises `NameError`
(undefined `days` at suggest.py line 80) instead of returning the
documented 10.0 / 5.0 / `min(matches/15, 1) * 100 * 0.20` fallback, which
is unreachable dead code below the raise. -/
theorem form_value_raises_nameError :
    engNoData.calculateFormValue pNoForm = .error .nameError ∧
    engEmptyForm.calculateFormValue pNoForm = .error .nameError :=
  ⟨rfl, rfl⟩

/-- C3: the `suggest` CLI passes keyword arguments `exclude_team` and
`ignore_position` (draft.py line 110) but `get_recommendations` accepts
only `current_round` and `n` (suggest.py line 377), so the call raises
`TypeError` and no club/position exclusion filtering exists in the engine. -/
theorem suggest_keywords_not_accepted :
    (suggestCallKeywords.all
      fun k => !(getRecommendationsParamNames.contains k)) = true ∧
    suggestCallKeywords = ["exclude_team", "ignore_position"] := by decide

/-- C4: the `total` field of `get_score_breakdown` always equals
`calculate_total_score` for the same candidate and round (both raise on the
same inputs, and agree whenever they return); the embedding of both is a
pure function of the engine snapshot, so neither mutates state. -/
theorem breakdown_total_eq_totalScore (e : Engine) (p : Player) (r : ℤ) :
    (e.getScoreBreakdown p r).map (·.total) = e.calculateTotalScore p r := by
  unfold Engine.getScoreBreakdown Engine.calculateTotalScore
  cases h : e.calculateFormValue p <;> simp [h, Except.map]

unseal Rat.mul Rat.ofScientific Rat.inv Rat.add Rat.sub in
/-- Outside the 'Short Term' and 'Medium Term' rows, the multiplier the
breakdown reports agrees (times 15, after the 2-decimal rounding) with the
penalty `calculate_missed_time` produces. -/
theorem breakdownMult_agrees (sev : PyStr)
    (h1 : sev ≠ chars "Short Term") (h2 : sev ≠ chars "Medium Term") :
    breakdownMult sev * 15 = pyRound2 (missedTimeMult sev * 15) := by
  unfold breakdownMult missedTimeMult
  split_ifs <;> decide

/-- C7 amended: for a candidate not at AFCON whose severity is neither
'Short Term' nor 'Medium Term', the breakdown's reported
`injury_multiplier * 15` equals its reported `injury_penalty`; for
'Short Term' the breakdown reports 0.7 while `calculate_missed_time`
applies 0.4, and for 'Medium Term' it reports 0.4 while 0.25 is applied. -/
theorem breakdown_injury_mult_amended (e : Engine) (p : Player) (r : ℤ)
    (hafcon : atAfcon e.config p.player = false)
    (h1 : p.injurySeverity.getD (chars "Healthy") ≠ chars "Short Term")
    (h2 : p.injurySeverity.getD (chars "Healthy") ≠ chars "Medium Term") :
    (e.getScoreBreakdown p r).map (fun b => b.injury_multiplier * 15)
      = (e.getScoreBreakdown p r).map (·.injury_penalty) := by
  unfold Engine.getScoreBreakdown
  cases h : e.calculateFormValue p with
  | error err => simp [h, Except.map]
  | ok form =>
    simp only [h, Except.map, Except.ok.injEq]
    show breakdownMult (p.injurySeverity.getD (chars "Healthy")) * 15
      = pyRound2 (e.calculateMissedTime p)
    unfold Engine.calculateMissedTime
    simp only [hafcon, Bool.false_eq_true, if_false]
    exact breakdownMult_agrees _ h1 h2

/-- Concrete 'Short Term' player for the C7 counterexample and witness. -/
def pShortTerm : Player :=
  ⟨chars "Short Guy", chars "M", chars "CCC", none, none, none,
    some (chars "Short Term")⟩

/-- Engine for C7: recent form resolves for "Short Guy", no AFCON data. -/
def engC7 : Engine :=
  ⟨⟨[], none, some [(chars "Short Guy", 3)], none, none, none⟩, [], []⟩

unseal Rat.mul Rat.ofScientific Rat.inv Rat.add Rat.sub in
/-- C7 counterexample: for the healthy-at-AFCON-free 'Short Term' candidate
the breakdown reports `injury_multiplier = 0.7`, but the penalty actually
applied (and reported) is `0.4 * 15 = 6 ≠ 0.7 * 15`. -/
theorem breakdown_injury_mult_counterexample :
    atAfcon engC7.config pShortTerm.player = false ∧
    (engC7.getScoreBreakdown pShortTerm 1).map (·.injury_multiplier)
      = .ok 0.7 ∧
    (engC7.getScoreBreakdown pShortTerm 1).map (·.injury_penalty) = .ok 6 ∧
    (0.7 : ℚ) * 15 ≠ 6 :=
  ⟨rfl, rfl, rfl, by norm_num⟩

/-- Concrete healthy player for the C7 witness. -/
def pHealthy : Player :=
  ⟨chars "Fit Guy", chars "M", chars "CCC", none, none, none,
    some (chars "Questionable")⟩

/-- Engine for the C7 witness: recent form resolves for "Fit Guy". -/
def engC7w : Engine :=
  ⟨⟨[], none, some [(chars "Fit Guy", 3)], none, none, none⟩, [], []⟩

/-- C7 witness: the amended agreement at a concrete 'Questionable'
candidate. -/
theorem breakdown_injury_mult_amended_witness :
    (engC7w.getScoreBreakdown pHealthy 1).map (fun b => b.injury_multiplier * 15)
      = (engC7w.getScoreBreakdown pHealthy 1).map (·.injury_penalty) :=
  breakdown_injury_mult_amended engC7w pHealthy 1 (by decide) (by decide) (by decide)

/-- Every scored pair produced by the scoring loop carries a player from the
input list. -/
theorem scoreAll_mem {e : Engine} {r : ℤ} :
    ∀ {l : List Player} {out : List (Player × ℚ)},
      e.scoreAll r l = .ok out → ∀ x ∈ out, x.1 ∈ l := by
  intro l
  induction l with
  | nil =>
    intro out h x hx
    unfold Engine.scoreAll at h
    cases h
    simp at hx
  | cons p rest ih =>
    intro out h x hx
    unfold Engine.scoreAll at h
    cases hs : e.calculateTotalScore p r with
    | error err => rw [hs] at h; cases h
    | ok s =>
      rw [hs] at h
      cases ho : e.scoreAll r rest with
      | error err => rw [ho] at h; cases h
      | ok others =>
        rw [ho] at h
        cases h
        rcases List.mem_cons.mp hx with hx | hx
        · subst hx
          exact List.mem_cons_self p rest
        · exact List.mem_cons_of_mem p (ih ho x hx)

/-- C9: whenever `get_recommendations` returns, every returned candidate's
name fuzzy-matches no drafted name, the list has at most `n` entries, and
the scores are non-increasing. -/
theorem getRecommendations_spec (e : Engine) (r : ℤ) (n : ℕ)
    (res : List (Player × ℚ)) (h : e.getRecommendations r n = .ok res) :
    (∀ pr ∈ res, ∀ d ∈ e.drafted, fuzzyMatchName pr.1.player d = false) ∧
    res.length ≤ n ∧
    List.Pairwise (fun a b : Player × ℚ => b.2 ≤ a.2) res := by
  unfold Engine.getRecommendations at h
  dsimp only at h
  cases hs : e.scoreAll r (getAllAvailablePlayers e.config e.drafted) with
  | error err => rw [hs] at h; cases h
  | ok scored =>
    rw [hs] at h
    have hres : res = (scored.mergeSort fun a b => decide (b.2 ≤ a.2)).take n :=
      (Except.ok.inj h).symm
    subst hres
    refine ⟨?_, List.length_take_le n _, ?_⟩
    · intro pr hpr d hd
      have h1 : pr ∈ scored.mergeSort (fun a b => decide (b.2 ≤ a.2)) :=
        List.mem_of_mem_take hpr
      have h2 : pr ∈ scored := List.mem_mergeSort.mp h1
      have h3 : pr.1 ∈ getAllAvailablePlayers e.config e.drafted :=
        scoreAll_mem hs pr h2
      unfold getAllAvailablePlayers at h3
      obtain ⟨q, hq, hqe⟩ := List.mem_map.mp h3
      have hq2 := (List.mem_filter.mp hq).2
      have hname : pr.1.player = q.player := by rw [← hqe]
      rw [hname]
      simp only [Bool.not_eq_true', List.any_eq_false] at hq2
      exact Bool.not_eq_true _ ▸ hq2 d hd
    · have htrans : ∀ a b c : Player × ℚ,
          decide (b.2 ≤ a.2) → decide (c.2 ≤ b.2) → decide (c.2 ≤ a.2) := by
        intro a b c hab hbc
        simp only [decide_eq_true_eq] at *
        exact le_trans hbc hab
      have htotal : ∀ a b : Player × ℚ,
          decide (b.2 ≤ a.2) || decide (a.2 ≤ b.2) := by
        intro a b
        rcases le_total b.2 a.2 with hh | hh <;> simp [hh]
      have hsorted := List.sorted_mergeSort htrans htotal scored
      have hpair : List.Pairwise (fun a b : Player × ℚ => b.2 ≤ a.2)
          (scored.mergeSort fun a b => decide (b.2 ≤ a.2)) :=
        hsorted.imp fun hab => by simpa using hab
      exact hpair.sublist (List.take_sublist n _)

/-- Concrete ranking entry used in the C9 witness. -/
def pW9 : Player := ⟨chars "alice", chars "M", chars "CCC", none, some 6, none, none⟩

/-- Concrete engine for the C9 witness: one ranked player with a matching
recent-form record, one drafted name ("bob") that matches nothing. -/
def engW9 : Engine :=
  ⟨⟨[pW9], none, some [(chars "alice", 3)], none, none, none⟩, [], [chars "bob"]⟩

/-- The enrichment of `pW9` performed by `get_all_available_players`. -/
def pW9e : Player := { pW9 with stats := none, injurySeverity := some (chars "Unknown") }

/-- The concrete result of `engW9.getRecommendations 1 10`. -/
def resW9 : List (Player × ℚ) := [(pW9e, 63.5)]

unseal Rat.mul Rat.ofScientific Rat.inv Rat.add Rat.sub in
/-- C9 witness: the filtering/length/ordering guarantees on the concrete
one-candidate run. -/
theorem getRecommendations_spec_witness :
    (∀ pr ∈ resW9, ∀ d ∈ engW9.drafted, fuzzyMatchName pr.1.player d = false) ∧
    resW9.length ≤ 10 ∧
    List.Pairwise (fun a b : Player × ℚ => b.2 ≤ a.2) resW9 :=
  getRecommendations_spec engW9 1 10 resW9 (by
    show engW9.getRecommendations 1 10 = .ok resW9
    unfold Engine.getRecommendations
    dsimp only
    rw [show engW9.scoreAll 1 (getAllAvailablePlayers engW9.config engW9.drafted)
        = .ok [(pW9e, 63.5)] from rfl]
    dsimp only
    rw [List.mergeSort_singleton]
    rfl)
